import Mathlib

/-!
Verification of the ResumeMaker core: the word-level diff engine, the
keyword extractor and the resume/job matcher specified for the
resume-optimization application, together with the front-end helpers that
are present in the repository (upload form construction, the generate
guard of the Home page, and the ATS score rendering.)

The matching / extraction / diff algorithms live behind the backend API
and are not part of the shipped sources, so they are modelled here
faithfully from the specification's words; the front-end helpers are
translated directly from the TypeScript sources.
-/

namespace ResumeMaker

/-! ## Word splitting and joining -/

/-- Modelled from the spec: "Split both texts on whitespace into word
sequences."  Splits a character list into maximal runs of non-whitespace
characters, dropping all whitespace. -/
def splitWsChars : List Char → List String
  | [] => []
  | c :: cs =>
    if c.isWhitespace then splitWsChars cs
    else ⟨c :: cs.takeWhile (fun d => !d.isWhitespace)⟩ ::
      splitWsChars (cs.dropWhile (fun d => !d.isWhitespace))
termination_by l => l.length
decreasing_by
  all_goals simp
  all_goals have := (List.dropWhile_suffix (l := cs) (fun d => !d.isWhitespace)).length_le
  all_goals omega

/-- The whitespace-split word sequence of a string. -/
def splitWs (s : String) : List String := splitWsChars s.data

/-- Joining a word sequence with single spaces (the "space-joined"
concatenation of the spec). -/
def joinWords : List String → String
  | [] => ""
  | w :: ws => ws.foldl (fun acc x => acc ++ " " ++ x) w

/-! ## The word diff engine (spec section 4.3) -/

/-- Classification of a diff token: present only in the optimized text,
only in the original text, or in both. -/
inductive DiffType
  | added
  | removed
  | unchanged
deriving DecidableEq, Repr

/-- Modelled from the spec: "DiffToken: {type: added|removed|unchanged,
word: string}". -/
structure DiffToken where
  type : DiffType
  word : String
deriving DecidableEq, Repr

/-- Modelled from the spec: the longest-common-subsequence length of two
word sequences, by the classic dynamic-programming recurrence. -/
def lcsLen : List String → List String → Nat
  | [], _ => 0
  | _ :: _, [] => 0
  | a :: as, b :: bs =>
    if a = b then lcsLen as bs + 1
    else max (lcsLen as (b :: bs)) (lcsLen (a :: as) bs)
termination_by as bs => as.length + bs.length

/-- Modelled from the spec: the LCS backtrace over two word sequences.  A
word present in both at an aligned position yields `unchanged`, a word
only in the first sequence `removed`, a word only in the second `added`;
on ties the earliest available position is matched (deletions are emitted
before insertions). -/
def diffWordsCore : List String → List String → List DiffToken
  | [], bs => bs.map (fun w => ⟨DiffType.added, w⟩)
  | a :: as, [] => (a :: as).map (fun w => ⟨DiffType.removed, w⟩)
  | a :: as, b :: bs =>
    if a = b then ⟨DiffType.unchanged, a⟩ :: diffWordsCore as bs
    else if lcsLen as (b :: bs) ≥ lcsLen (a :: as) bs then
      ⟨DiffType.removed, a⟩ :: diffWordsCore as (b :: bs)
    else
      ⟨DiffType.added, b⟩ :: diffWordsCore (a :: as) bs
termination_by as bs => as.length + bs.length

/-- Modelled from the spec: "diffWords(original: string, optimized:
string) -> sequence(DiffToken)", computed over the whitespace-split word
sequences of the two texts (the algorithm itself is server-side and not in
the shipped sources). -/
def diffWords (original optimized : String) : List DiffToken :=
  diffWordsCore (splitWs original) (splitWs optimized)

/-- The words of the non-added tokens, in output order: the reconstruction
of the original text's word sequence. -/
def sourceWords (ts : List DiffToken) : List String :=
  ts.filterMap (fun t => if t.type = DiffType.added then none else some t.word)

/-- The words of the non-removed tokens, in output order: the
reconstruction of the optimized text's word sequence. -/
def targetWords (ts : List DiffToken) : List String :=
  ts.filterMap (fun t => if t.type = DiffType.removed then none else some t.word)

/-- The words of the unchanged tokens, in output order. -/
def unchangedWords (ts : List DiffToken) : List String :=
  ts.filterMap (fun t => if t.type = DiffType.unchanged then some t.word else none)

/-- How many tokens of a diff are `unchanged`. -/
def countUnchanged (ts : List DiffToken) : Nat :=
  (ts.filter (fun t => t.type = DiffType.unchanged)).length

/-! ### Diff lemmas -/

@[simp]
theorem sourceWords_nil : sourceWords [] = [] := rfl

@[simp]
theorem targetWords_nil : targetWords [] = [] := rfl

@[simp]
theorem unchangedWords_nil : unchangedWords [] = [] := rfl

@[simp]
theorem countUnchanged_nil : countUnchanged [] = 0 := rfl

@[simp]
theorem sourceWords_cons (t : DiffToken) (ts : List DiffToken) :
    sourceWords (t :: ts) =
      if t.type = DiffType.added then sourceWords ts
      else t.word :: sourceWords ts := by
  by_cases h : t.type = DiffType.added <;> simp [sourceWords, h]

@[simp]
theorem targetWords_cons (t : DiffToken) (ts : List DiffToken) :
    targetWords (t :: ts) =
      if t.type = DiffType.removed then targetWords ts
      else t.word :: targetWords ts := by
  by_cases h : t.type = DiffType.removed <;> simp [targetWords, h]

@[simp]
theorem unchangedWords_cons (t : DiffToken) (ts : List DiffToken) :
    unchangedWords (t :: ts) =
      if t.type = DiffType.unchanged then t.word :: unchangedWords ts
      else unchangedWords ts := by
  by_cases h : t.type = DiffType.unchanged <;> simp [unchangedWords, h]

@[simp]
theorem countUnchanged_cons (t : DiffToken) (ts : List DiffToken) :
    countUnchanged (t :: ts) =
      if t.type = DiffType.unchanged then countUnchanged ts + 1
      else countUnchanged ts := by
  by_cases h : t.type = DiffType.unchanged <;> simp [countUnchanged, h]

theorem diffWordsCore_self (l : List String) :
    diffWordsCore l l = l.map (fun w => ⟨DiffType.unchanged, w⟩) := by
  induction l with
  | nil => simp [diffWordsCore]
  | cons a as ih => simp [diffWordsCore, ih]

theorem sourceWords_map_added (bs : List String) :
    sourceWords (bs.map (fun w => ⟨DiffType.added, w⟩)) = [] := by
  induction bs with
  | nil => simp
  | cons b bs ih => simp [ih]

theorem targetWords_map_added (bs : List String) :
    targetWords (bs.map (fun w => ⟨DiffType.added, w⟩)) = bs := by
  induction bs with
  | nil => simp
  | cons b bs ih => simp [ih]

theorem sourceWords_map_removed (as : List String) :
    sourceWords (as.map (fun w => ⟨DiffType.removed, w⟩)) = as := by
  induction as with
  | nil => simp
  | cons a as ih => simp [ih]

theorem targetWords_map_removed (as : List String) :
    targetWords (as.map (fun w => ⟨DiffType.removed, w⟩)) = [] := by
  induction as with
  | nil => simp
  | cons a as ih => simp [ih]

theorem diffWordsCore_reconstruct (as bs : List String) :
    sourceWords (diffWordsCore as bs) = as ∧
      targetWords (diffWordsCore as bs) = bs := by
  induction as, bs using diffWordsCore.induct with
  | case1 bs =>
    simp only [diffWordsCore]
    exact ⟨sourceWords_map_added bs, targetWords_map_added bs⟩
  | case2 a as =>
    simp only [diffWordsCore]
    exact ⟨sourceWords_map_removed (a :: as), targetWords_map_removed (a :: as)⟩
  | case3 as b bs ih =>
    simp only [diffWordsCore, if_pos rfl]
    simp [ih.1, ih.2]
  | case4 a as b bs hne hge ih =>
    simp only [diffWordsCore, if_neg hne, if_pos hge]
    simp [ih.1, ih.2]
  | case5 a as b bs hne hlt ih =>
    simp only [diffWordsCore, if_neg hne, if_neg hlt]
    simp [ih.1, ih.2]

theorem countUnchanged_map_added (bs : List String) :
    countUnchanged (bs.map (fun w => ⟨DiffType.added, w⟩)) = 0 := by
  induction bs with
  | nil => simp
  | cons b bs ih => simp [ih]

theorem countUnchanged_map_removed (as : List String) :
    countUnchanged (as.map (fun w => ⟨DiffType.removed, w⟩)) = 0 := by
  induction as with
  | nil => simp
  | cons a as ih => simp [ih]

theorem countUnchanged_diffWordsCore (as bs : List String) :
    countUnchanged (diffWordsCore as bs) = lcsLen as bs := by
  induction as, bs using diffWordsCore.induct with
  | case1 bs =>
    simp only [diffWordsCore]
    cases bs with
    | nil => simp [lcsLen]
    | cons b bs => simp [lcsLen, countUnchanged_map_added]
  | case2 a as =>
    simp only [diffWordsCore, lcsLen]
    exact countUnchanged_map_removed (a :: as)
  | case3 as b bs ih =>
    simp only [diffWordsCore, lcsLen, if_pos rfl]
    simp [ih]
  | case4 a as b bs hne hge ih =>
    simp only [diffWordsCore, lcsLen, if_neg hne, if_pos hge]
    simpa [ih] using (Nat.max_eq_left hge).symm
  | case5 a as b bs hne hlt ih =>
    simp only [diffWordsCore, lcsLen, if_neg hne, if_neg hlt]
    have hle : lcsLen as (b :: bs) ≤ lcsLen (a :: as) bs :=
      Nat.le_of_lt (Nat.lt_of_not_le hlt)
    simpa [ih] using (Nat.max_eq_right hle).symm

theorem unchangedWords_sublist_sourceWords (ts : List DiffToken) :
    (unchangedWords ts).Sublist (sourceWords ts) := by
  induction ts with
  | nil => simp
  | cons t ts ih =>
    cases h : t.type <;> simp [h]
    · exact ih
    · exact ih.cons t.word
    · exact ih

theorem unchangedWords_sublist_targetWords (ts : List DiffToken) :
    (unchangedWords ts).Sublist (targetWords ts) := by
  induction ts with
  | nil => simp
  | cons t ts ih =>
    cases h : t.type <;> simp [h]
    · exact ih.cons t.word
    · exact ih
    · exact ih

/-! ### Whitespace normalization

`joinWords (splitWs t)` is the whitespace normalization of `t`.  The
lemmas below show it is idempotent: splitting a single-space join of
nonempty whitespace-free words returns exactly those words, and every
word produced by `splitWs` is nonempty and whitespace-free. -/

/-- A word as produced by whitespace splitting: nonempty and free of
whitespace characters. -/
def goodWord (w : String) : Prop :=
  w.data ≠ [] ∧ ∀ c ∈ w.data, c.isWhitespace = false

/-- The character data a single-space join appends after its first word:
a space before each further word. -/
def sepData : List String → List Char
  | [] => []
  | x :: xs => ' ' :: (x.data ++ sepData xs)

theorem takeWhile_append_all (p : Char → Bool) (xs ys : List Char)
    (h : ∀ x ∈ xs, p x = true) :
    (xs ++ ys).takeWhile p = xs ++ ys.takeWhile p := by
  induction xs with
  | nil => simp
  | cons x xs ih =>
    have hx : p x = true := h x (by simp)
    simp only [List.cons_append, List.takeWhile_cons, hx, if_true]
    rw [ih (fun y hy => h y (by simp [hy]))]

theorem dropWhile_append_all (p : Char → Bool) (xs ys : List Char)
    (h : ∀ x ∈ xs, p x = true) :
    (xs ++ ys).dropWhile p = ys.dropWhile p := by
  induction xs with
  | nil => simp
  | cons x xs ih =>
    have hx : p x = true := h x (by simp)
    simp only [List.cons_append, List.dropWhile_cons, hx, if_true]
    exact ih (fun y hy => h y (by simp [hy]))

theorem joinWords_data (w : String) (ws : List String) :
    (joinWords (w :: ws)).data = w.data ++ sepData ws := by
  induction ws generalizing w with
  | nil => simp [joinWords, sepData]
  | cons x xs ih =>
    have h1 : joinWords (w :: x :: xs) = joinWords ((w ++ " " ++ x) :: xs) := rfl
    have hsp : (" " : String).data = [' '] := rfl
    rw [h1, ih, sepData]
    simp [String.data_append, hsp]

theorem splitWsChars_join_aux (ws : List String)
    (hws : ∀ w ∈ ws, goodWord w) (wd : List Char) (hne : wd ≠ [])
    (hw : ∀ c ∈ wd, c.isWhitespace = false) :
    splitWsChars (wd ++ sepData ws) = ⟨wd⟩ :: ws := by
  induction ws generalizing wd with
  | nil =>
    cases wd with
    | nil => exact absurd rfl hne
    | cons c cs =>
      have hc : c.isWhitespace = false := hw c (by simp)
      have hcs : ∀ d ∈ cs, (!d.isWhitespace) = true := by
        intro d hd
        simp [hw d (by simp [hd])]
      rw [sepData, List.append_nil, splitWsChars, if_neg (by simp [hc])]
      rw [show cs.takeWhile (fun d => !d.isWhitespace) = cs by
        simpa using takeWhile_append_all _ cs [] hcs]
      rw [show cs.dropWhile (fun d => !d.isWhitespace) = [] by
        simpa using dropWhile_append_all _ cs [] hcs]
      rw [splitWsChars]
  | cons x xs ih =>
    have hx : goodWord x := hws x (by simp)
    have hxs : ∀ w ∈ xs, goodWord w := fun w hw' => hws w (by simp [hw'])
    cases wd with
    | nil => exact absurd rfl hne
    | cons c cs =>
      have hc : c.isWhitespace = false := hw c (by simp)
      have hcs : ∀ d ∈ cs, (!d.isWhitespace) = true := by
        intro d hd
        simp [hw d (by simp [hd])]
      rw [sepData, List.cons_append, splitWsChars, if_neg (by simp [hc])]
      rw [show (cs ++ ' ' :: (x.data ++ sepData xs)).takeWhile
            (fun d => !d.isWhitespace) = cs by
        rw [takeWhile_append_all _ cs _ hcs]
        simp [List.takeWhile_cons]]
      rw [show (cs ++ ' ' :: (x.data ++ sepData xs)).dropWhile
            (fun d => !d.isWhitespace) = ' ' :: (x.data ++ sepData xs) by
        rw [dropWhile_append_all _ cs _ hcs]
        simp [List.dropWhile_cons]]
      rw [splitWsChars, if_pos (by simp)]
      rw [ih hxs x.data hx.1 hx.2]

theorem goodWord_splitWsChars (l : List Char) :
    ∀ w ∈ splitWsChars l, goodWord w := by
  induction l using splitWsChars.induct with
  | case1 => simp [splitWsChars]
  | case2 c cs hc ih =>
    rw [splitWsChars, if_pos hc]
    exact ih
  | case3 c cs hc ih =>
    rw [splitWsChars, if_neg hc]
    intro w hmem
    rcases List.mem_cons.mp hmem with h | h
    · subst h
      refine ⟨by simp, ?_⟩
      intro d hd
      rcases List.mem_cons.mp hd with h' | h'
      · subst h'
        simpa using hc
      · simpa using List.mem_takeWhile_imp h'
    · exact ih w h

theorem splitWs_joinWords (ws : List String) (h : ∀ w ∈ ws, goodWord w) :
    splitWs (joinWords ws) = ws := by
  cases ws with
  | nil => simp [joinWords, splitWs, splitWsChars]
  | cons w ws =>
    have hw : goodWord w := h w (by simp)
    have hws : ∀ x ∈ ws, goodWord x := fun x hx => h x (by simp [hx])
    rw [splitWs, joinWords_data]
    exact splitWsChars_join_aux ws hws w.data hw.1 hw.2

/-- Whitespace normalization is idempotent: re-splitting the single-space
join of the words of `t` returns exactly those words. -/
theorem splitWs_joinWords_splitWs (t : String) :
    splitWs (joinWords (splitWs t)) = splitWs t :=
  splitWs_joinWords (splitWs t) (goodWord_splitWsChars t.data)

/-! ### Claim theorems for the diff engine -/

/-- C1 counterexample.  At `t = " a"` (a leading space), `diffWords t t`
yields the single unchanged token `"a"`, and joining the word fields with
single spaces gives `"a"`, not `t` itself: the round trip normalizes the
whitespace. -/
theorem diffWords_self_join_ne_counterexample :
    ¬ joinWords ((diffWords " a" " a").map DiffToken.word) = " a" := by
  have h : diffWords " a" " a" = [⟨DiffType.unchanged, "a"⟩] := by
    simp [diffWords, splitWs, splitWsChars, diffWordsCore]
  rw [h]
  simp [joinWords]

/-- C1 (amended).  For every string `t`, `diffWords t t` contains only
`unchanged` tokens, and its word fields are exactly the whitespace-split
word sequence of `t` (including when `t` is empty); joining them with
single spaces yields the whitespace normalization `joinWords (splitWs t)`
of `t`, which equals `t` itself exactly when `t` is a fixed point of that
normalization — and normalization is idempotent, so the join round-trips
precisely on such normalized strings, not on every `t` with leading,
trailing, repeated or non-space whitespace. -/
theorem diffWords_self_unchanged (t : String) :
    (diffWords t t).all (fun tok => tok.type = DiffType.unchanged) = true ∧
      (diffWords t t).map DiffToken.word = splitWs t ∧
      joinWords ((diffWords t t).map DiffToken.word) = joinWords (splitWs t) ∧
      (joinWords ((diffWords t t).map DiffToken.word) = t ↔
        t = joinWords (splitWs t)) ∧
      joinWords (splitWs (joinWords (splitWs t))) = joinWords (splitWs t) := by
  have h : diffWords t t = (splitWs t).map (fun w => ⟨DiffType.unchanged, w⟩) :=
    diffWordsCore_self (splitWs t)
  have hwords : (diffWords t t).map DiffToken.word = splitWs t := by
    rw [h]
    simp [Function.comp_def]
  refine ⟨?_, hwords, by rw [hwords], ?_, ?_⟩
  · rw [h]
    simp [List.all_eq_true]
  · rw [hwords]
    exact eq_comm
  · rw [splitWs_joinWords_splitWs]

/-- C2.  For every pair of strings, the non-added tokens of the diff
reproduce, in output order, the whitespace-split word sequence of the
original text, and the non-removed tokens reproduce that of the optimized
text. -/
theorem diffWords_reconstruct (a b : String) :
    sourceWords (diffWords a b) = splitWs a ∧
      targetWords (diffWords a b) = splitWs b :=
  diffWordsCore_reconstruct (splitWs a) (splitWs b)

/-- C3.  The diff is a minimal edit script under LCS alignment: the number
of `unchanged` tokens equals the LCS length of the two whitespace-split
word sequences (hence the number of `added` plus `removed` tokens is
minimal), and the unchanged words form a common subsequence of both word
sequences. -/
theorem diffWords_minimal (a b : String) :
    countUnchanged (diffWords a b) = lcsLen (splitWs a) (splitWs b) ∧
      (unchangedWords (diffWords a b)).Sublist (splitWs a) ∧
      (unchangedWords (diffWords a b)).Sublist (splitWs b) := by
  refine ⟨countUnchanged_diffWordsCore _ _, ?_, ?_⟩
  · have h := unchangedWords_sublist_sourceWords (diffWords a b)
    rw [show sourceWords (diffWords a b) = splitWs a from
      (diffWordsCore_reconstruct (splitWs a) (splitWs b)).1] at h
    exact h
  · have h := unchangedWords_sublist_targetWords (diffWords a b)
    rw [show targetWords (diffWords a b) = splitWs b from
      (diffWordsCore_reconstruct (splitWs a) (splitWs b)).2] at h
    exact h

/-! ## The keyword extractor (spec section 4.1) -/

/-- Lowercasing of a string, character by character (the spec's
"lowercase-normalize"). -/
def strToLower (s : String) : String := ⟨s.data.map Char.toLower⟩

/-- Deduplication keeping the first occurrence of every element (the
spec's "deduplicate within each category, preserve first-seen order"). -/
def firstDedup : List String → List String
  | [] => []
  | x :: xs => x :: firstDedup (xs.filter (fun y => y ≠ x))
termination_by l => l.length
decreasing_by
  simp only [List.length_cons, Nat.lt_succ_iff]
  exact (List.filter_sublist _).length_le

/-- Modelled from the spec: the four fixed reference vocabularies the
extractor classifies against (technical skills, tools, soft skills,
action-verb lemmas).  The vocabularies themselves are server-side data,
so they are a parameter of the model. -/
structure Vocab where
  technical : List String
  tools : List String
  soft : List String
  verbs : List String

/-- Modelled from the spec: "ExtractedKeywords: categorized sets of
strings" with the four categories of
`src/frontend/src/types/index.ts` (ExtractedKeywords). -/
structure ExtractedKeywords where
  technical_skills : List String
  tools : List String
  soft_skills : List String
  action_verbs : List String
deriving DecidableEq, Repr

/-- The sliding n-gram windows of a token list, each window joined with
single spaces. -/
def windows (n : Nat) (ts : List String) : List String :=
  (List.range (ts.length + 1 - n)).map (fun i => joinWords ((ts.drop i).take n))

/-- Modelled from the spec: the candidate stream of the extractor —
lowercased whitespace tokens of the job text, with the sliding n-gram
windows (n = 4, 3, 2) tried before the single-token fallback. -/
def candidates (jobText : String) : List String :=
  let toks := splitWs (strToLower jobText)
  windows 4 toks ++ windows 3 toks ++ windows 2 toks ++ toks

/-- Modelled from the spec: "extract(jobText: string) -> ExtractedKeywords".
Each candidate token or phrase is classified against the four reference
vocabularies with the priority order technical_skills > tools >
soft_skills > action_verbs, and each category is deduplicated preserving
first-seen order. -/
def extract (v : Vocab) (jobText : String) : ExtractedKeywords :=
  let cs := candidates jobText
  { technical_skills := firstDedup (cs.filter (fun c => c ∈ v.technical))
    tools := firstDedup (cs.filter (fun c => c ∉ v.technical ∧ c ∈ v.tools))
    soft_skills := firstDedup
      (cs.filter (fun c => c ∉ v.technical ∧ c ∉ v.tools ∧ c ∈ v.soft))
    action_verbs := firstDedup
      (cs.filter (fun c => c ∉ v.technical ∧ c ∉ v.tools ∧ c ∉ v.soft ∧ c ∈ v.verbs)) }

/-! ### firstDedup lemmas -/

theorem mem_firstDedup (a : String) (l : List String) :
    a ∈ firstDedup l ↔ a ∈ l := by
  induction l using firstDedup.induct with
  | case1 => simp [firstDedup]
  | case2 x xs ih =>
    rw [firstDedup]
    simp only [ne_eq, decide_not] at ih
    by_cases h : a = x
    · simp [h]
    · simp [h, ih, List.mem_filter]

theorem nodup_firstDedup (l : List String) : (firstDedup l).Nodup := by
  induction l using firstDedup.induct with
  | case1 => simp [firstDedup]
  | case2 x xs ih =>
    rw [firstDedup]
    refine List.Nodup.cons ?_ ih
    intro hmem
    have := (mem_firstDedup x _).mp hmem
    simp [List.mem_filter] at this

theorem firstDedup_sublist (l : List String) : (firstDedup l).Sublist l := by
  induction l using firstDedup.induct with
  | case1 => simp [firstDedup]
  | case2 x xs ih =>
    rw [firstDedup]
    exact (ih.trans (List.filter_sublist xs)).cons₂ x

/-! ### Extractor lemmas -/

theorem mem_extract_technical (v : Vocab) (s : String) (c : String) :
    c ∈ (extract v s).technical_skills ↔
      c ∈ candidates s ∧ c ∈ v.technical := by
  simp [extract, mem_firstDedup, List.mem_filter]

theorem mem_extract_tools (v : Vocab) (s : String) (c : String) :
    c ∈ (extract v s).tools ↔
      c ∈ candidates s ∧ c ∉ v.technical ∧ c ∈ v.tools := by
  simp [extract, mem_firstDedup, List.mem_filter]

theorem mem_extract_soft (v : Vocab) (s : String) (c : String) :
    c ∈ (extract v s).soft_skills ↔
      c ∈ candidates s ∧ c ∉ v.technical ∧ c ∉ v.tools ∧ c ∈ v.soft := by
  simp [extract, mem_firstDedup, List.mem_filter]

theorem mem_extract_verbs (v : Vocab) (s : String) (c : String) :
    c ∈ (extract v s).action_verbs ↔
      c ∈ candidates s ∧ c ∉ v.technical ∧ c ∉ v.tools ∧ c ∉ v.soft ∧
        c ∈ v.verbs := by
  simp [extract, mem_firstDedup, List.mem_filter]

theorem extract_technical_sublist (v : Vocab) (s : String) :
    (extract v s).technical_skills.Sublist (candidates s) := by
  simp only [extract]
  exact (firstDedup_sublist _).trans (List.filter_sublist _)

theorem extract_tools_sublist (v : Vocab) (s : String) :
    (extract v s).tools.Sublist (candidates s) := by
  simp only [extract]
  exact (firstDedup_sublist _).trans (List.filter_sublist _)

theorem extract_soft_sublist (v : Vocab) (s : String) :
    (extract v s).soft_skills.Sublist (candidates s) := by
  simp only [extract]
  exact (firstDedup_sublist _).trans (List.filter_sublist _)

theorem extract_verbs_sublist (v : Vocab) (s : String) :
    (extract v s).action_verbs.Sublist (candidates s) := by
  simp only [extract]
  exact (firstDedup_sublist _).trans (List.filter_sublist _)

/-- C6.  In the ExtractedKeywords returned by `extract`, no token appears
in more than one of the four categories; a token matching several
vocabularies lands in the highest-priority category under
technical_skills > tools > soft_skills > action_verbs (membership in each
category is characterized by matching that vocabulary and failing all
higher-priority ones); and each category is deduplicated, its order a
subsequence of the candidate stream's first-seen order. -/
theorem extract_invariants (v : Vocab) (s : String) :
    ((extract v s).technical_skills.Nodup ∧ (extract v s).tools.Nodup ∧
        (extract v s).soft_skills.Nodup ∧ (extract v s).action_verbs.Nodup) ∧
      (List.Disjoint (extract v s).technical_skills (extract v s).tools ∧
        List.Disjoint (extract v s).technical_skills (extract v s).soft_skills ∧
        List.Disjoint (extract v s).technical_skills (extract v s).action_verbs ∧
        List.Disjoint (extract v s).tools (extract v s).soft_skills ∧
        List.Disjoint (extract v s).tools (extract v s).action_verbs ∧
        List.Disjoint (extract v s).soft_skills (extract v s).action_verbs) ∧
      ((∀ c, c ∈ (extract v s).technical_skills ↔
          c ∈ candidates s ∧ c ∈ v.technical) ∧
        (∀ c, c ∈ (extract v s).tools ↔
          c ∈ candidates s ∧ c ∉ v.technical ∧ c ∈ v.tools) ∧
        (∀ c, c ∈ (extract v s).soft_skills ↔
          c ∈ candidates s ∧ c ∉ v.technical ∧ c ∉ v.tools ∧ c ∈ v.soft) ∧
        (∀ c, c ∈ (extract v s).action_verbs ↔
          c ∈ candidates s ∧ c ∉ v.technical ∧ c ∉ v.tools ∧ c ∉ v.soft ∧
            c ∈ v.verbs)) ∧
      ((extract v s).technical_skills.Sublist (candidates s) ∧
        (extract v s).tools.Sublist (candidates s) ∧
        (extract v s).soft_skills.Sublist (candidates s) ∧
        (extract v s).action_verbs.Sublist (candidates s)) := by
  refine ⟨⟨?_, ?_, ?_, ?_⟩, ⟨?_, ?_, ?_, ?_, ?_, ?_⟩,
    ⟨mem_extract_technical v s, mem_extract_tools v s,
      mem_extract_soft v s, mem_extract_verbs v s⟩,
    extract_technical_sublist v s, extract_tools_sublist v s,
    extract_soft_sublist v s, extract_verbs_sublist v s⟩
  · simp only [extract]; exact nodup_firstDedup _
  · simp only [extract]; exact nodup_firstDedup _
  · simp only [extract]; exact nodup_firstDedup _
  · simp only [extract]; exact nodup_firstDedup _
  · intro c h1 h2
    exact absurd ((mem_extract_technical v s c).mp h1).2
      ((mem_extract_tools v s c).mp h2).2.1
  · intro c h1 h2
    exact absurd ((mem_extract_technical v s c).mp h1).2
      ((mem_extract_soft v s c).mp h2).2.1
  · intro c h1 h2
    exact absurd ((mem_extract_technical v s c).mp h1).2
      ((mem_extract_verbs v s c).mp h2).2.1
  · intro c h1 h2
    exact absurd ((mem_extract_tools v s c).mp h1).2.2
      ((mem_extract_soft v s c).mp h2).2.2.1
  · intro c h1 h2
    exact absurd ((mem_extract_tools v s c).mp h1).2.2
      ((mem_extract_verbs v s c).mp h2).2.2.1
  · intro c h1 h2
    exact absurd ((mem_extract_soft v s c).mp h1).2.2.2
      ((mem_extract_verbs v s c).mp h2).2.2.2.1

/-! ## The matcher (spec section 4.2)

The record shapes follow `src/frontend/src/types/index.ts`
(`ParsedResume`, `Experience`, `Education`); the matching algorithm
itself is server-side and is modelled from the spec. -/

/-- One experience entry of a parsed resume
(`src/frontend/src/types/index.ts`, Experience). -/
structure Experience where
  title : String
  company : String
  duration : String
  responsibilities : List String
deriving DecidableEq, Repr

/-- One education entry of a parsed resume
(`src/frontend/src/types/index.ts`, Education). -/
structure Education where
  degree : String
  institution : String
  year : String
deriving DecidableEq, Repr

/-- A parsed resume (`src/frontend/src/types/index.ts`, ParsedResume). -/
structure ParsedResume where
  name : String
  email : String
  phone : String
  skills : List String
  experience : List Experience
  education : List Education
deriving DecidableEq, Repr

/-- Modelled from the spec: "MatchResult: score (integer 0-100),
matched_keywords (ordered list), missing_keywords (ordered list)" — the
`ats_score` / `matched_keywords` / `missing_keywords` fields of
OptimizedResume in `src/frontend/src/types/index.ts`. -/
structure MatchResult where
  score : Nat
  matched_keywords : List String
  missing_keywords : List String
deriving DecidableEq, Repr

/-- Whether `needle` occurs as a contiguous run inside `hay`
(the substring test of the matcher). -/
def containsSub (needle : List Char) : List Char → Bool
  | [] => needle.isEmpty
  | c :: t => needle.isPrefixOf (c :: t) || containsSub needle t

/-- Modelled from the spec: the resume's flattened searchable text —
"name + skills + all experience titles/companies/responsibilities +
education fields". -/
def searchableText (r : ParsedResume) : String :=
  joinWords
    ([r.name] ++ r.skills ++
      (r.experience.map (fun e => joinWords ([e.title, e.company] ++ e.responsibilities))) ++
      (r.education.map (fun e => joinWords [e.degree, e.institution, e.year])))

/-- Modelled from the spec: the case-insensitive substring presence test
of one keyword in the flattened resume text. -/
def kwPresent (r : ParsedResume) (kw : String) : Bool :=
  containsSub (strToLower kw).data (strToLower (searchableText r)).data

/-- Modelled from the spec: "the job's full keyword set (union of all
four categories, order-preserving, deduplicated)". -/
def jobKeywordUnion (k : ExtractedKeywords) : List String :=
  firstDedup (k.technical_skills ++ k.tools ++ k.soft_skills ++ k.action_verbs)

/-- Modelled from the spec: "match(resume: ParsedResume, keywords:
ExtractedKeywords) -> MatchResult" (the name `match` is a Lean keyword,
hence `atsMatch`).  `score = round(100 * matched_count / total_count)`
with the round-half-up encoded over naturals as
`(200 * matched + total) / (2 * total)`, and `score = 0` when
`total_count = 0`. -/
def atsMatch (r : ParsedResume) (k : ExtractedKeywords) : MatchResult :=
  let keys := jobKeywordUnion k
  let matched := keys.filter (fun kw => kwPresent r kw)
  let missing := keys.filter (fun kw => !kwPresent r kw)
  let total := keys.length
  { score := if total = 0 then 0 else (200 * matched.length + total) / (2 * total)
    matched_keywords := matched
    missing_keywords := missing }

/-! ### Matcher lemmas -/

theorem atsMatch_matched (r : ParsedResume) (k : ExtractedKeywords) :
    (atsMatch r k).matched_keywords =
      (jobKeywordUnion k).filter (fun kw => kwPresent r kw) := rfl

theorem atsMatch_missing (r : ParsedResume) (k : ExtractedKeywords) :
    (atsMatch r k).missing_keywords =
      (jobKeywordUnion k).filter (fun kw => !kwPresent r kw) := rfl

theorem atsMatch_score (r : ParsedResume) (k : ExtractedKeywords) :
    (atsMatch r k).score =
      if (jobKeywordUnion k).length = 0 then 0
      else (200 * (atsMatch r k).matched_keywords.length +
          (jobKeywordUnion k).length) / (2 * (jobKeywordUnion k).length) := rfl

/-- C4.  The score is the rounded percentage
`round(100 * matched_count / total_count)` (with round-half-up encoded
over naturals), it always lies in 0..100, and an all-empty keyword set
gives score 0 with empty matched and missing lists instead of a division
by zero. -/
theorem atsMatch_score_spec (r : ParsedResume) (k : ExtractedKeywords) :
    ((atsMatch r k).score =
        if (jobKeywordUnion k).length = 0 then 0
        else (200 * (atsMatch r k).matched_keywords.length +
            (jobKeywordUnion k).length) / (2 * (jobKeywordUnion k).length)) ∧
      (atsMatch r k).score ≤ 100 ∧
      (k.technical_skills = [] ∧ k.tools = [] ∧ k.soft_skills = [] ∧
          k.action_verbs = [] →
        (atsMatch r k).score = 0 ∧ (atsMatch r k).matched_keywords = [] ∧
          (atsMatch r k).missing_keywords = []) := by
  refine ⟨atsMatch_score r k, ?_, ?_⟩
  · rw [atsMatch_score r k]
    by_cases h : (jobKeywordUnion k).length = 0
    · simp [h]
    · rw [if_neg h]
      have hm : (atsMatch r k).matched_keywords.length ≤ (jobKeywordUnion k).length := by
        rw [atsMatch_matched]
        exact (List.filter_sublist _).length_le
      have hpos : 0 < 2 * (jobKeywordUnion k).length := by omega
      rw [show (100 : Nat) = 101 - 1 from rfl, Nat.le_sub_one_iff_lt (by omega)]
      rw [Nat.div_lt_iff_lt_mul hpos]
      omega
  · rintro ⟨h1, h2, h3, h4⟩
    simp [atsMatch, jobKeywordUnion, h1, h2, h3, h4, firstDedup]

/-- C5.  The matched and missing lists are disjoint, together they cover
exactly the union of the four job keyword categories (as a set), and each
preserves the deduplicated job-keyword order (both are subsequences of
the order-preserving union). -/
theorem atsMatch_partition (r : ParsedResume) (k : ExtractedKeywords) :
    List.Disjoint (atsMatch r k).matched_keywords (atsMatch r k).missing_keywords ∧
      (∀ x, (x ∈ (atsMatch r k).matched_keywords ∨
          x ∈ (atsMatch r k).missing_keywords) ↔
        x ∈ k.technical_skills ++ k.tools ++ k.soft_skills ++ k.action_verbs) ∧
      (atsMatch r k).matched_keywords.Sublist (jobKeywordUnion k) ∧
      (atsMatch r k).missing_keywords.Sublist (jobKeywordUnion k) := by
  refine ⟨?_, ?_, ?_, ?_⟩
  · intro x h1 h2
    rw [atsMatch_matched, List.mem_filter] at h1
    rw [atsMatch_missing, List.mem_filter] at h2
    simp [h1.2] at h2
  · intro x
    rw [atsMatch_matched, atsMatch_missing, List.mem_filter, List.mem_filter]
    constructor
    · rintro (h | h) <;>
        exact (mem_firstDedup x _).mp h.1
    · intro h
      have hx : x ∈ jobKeywordUnion k := (mem_firstDedup x _).mpr h
      by_cases hp : kwPresent r x
      · exact Or.inl ⟨hx, by simp [hp]⟩
      · exact Or.inr ⟨hx, by simp [hp]⟩
  · rw [atsMatch_matched]
    exact List.filter_sublist _
  · rw [atsMatch_missing]
    exact List.filter_sublist _

/-! ## Failure semantics (spec section 4.3, final paragraph)

The three core operations are total Lean functions, which captures "no
component throws for empty or malformed text".  The single contract
violation — a non-string (or null) argument where a string is required —
is modelled by dynamic-value wrappers that fail with an `InvalidInput`
error exactly then. -/

/-- The one error the core components may raise. -/
inductive CoreError
  | invalidInput
deriving DecidableEq, Repr

/-- A dynamic (JavaScript-like) argument value: a string, or one of the
non-string shapes a caller could pass instead. -/
inductive JsValue
  | vstr (s : String)
  | vnull
  | vnum (n : Int)
  | vbool (b : Bool)
deriving DecidableEq, Repr

/-- Whether a dynamic value is a string. -/
def JsValue.isStr : JsValue → Bool
  | .vstr _ => true
  | _ => false

/-- Modelled from the spec: `extract` behind the argument contract — a
non-string jobText fails with `InvalidInput`, a string never fails. -/
def extractChecked (v : Vocab) : JsValue → Except CoreError ExtractedKeywords
  | .vstr s => .ok (extract v s)
  | _ => .error .invalidInput

/-- Modelled from the spec: `diffWords` behind the argument contract — a
non-string argument fails with `InvalidInput`, strings never fail. -/
def diffWordsChecked : JsValue → JsValue → Except CoreError (List DiffToken)
  | .vstr a, .vstr b => .ok (diffWords a b)
  | _, _ => .error .invalidInput

/-- C7.  `extract` and `diffWords` succeed on every string input
(including the empty string, where `extract` returns four empty
categories), and the checked variants fail — with the `InvalidInput`
error and no other — exactly when an argument required to be a string is
not a string (null included); `atsMatch`, being a total function of its
typed arguments, raises nothing. -/
theorem core_failure_semantics (v : Vocab) (s a b : String) (x y : JsValue) :
    extractChecked v (JsValue.vstr s) = Except.ok (extract v s) ∧
      diffWordsChecked (JsValue.vstr a) (JsValue.vstr b) =
        Except.ok (diffWords a b) ∧
      extract v "" = ⟨[], [], [], []⟩ ∧
      ((extractChecked v x).isOk = true ↔ x.isStr = true) ∧
      ((extractChecked v x).isOk = false ↔
        extractChecked v x = Except.error CoreError.invalidInput) ∧
      ((diffWordsChecked x y).isOk = true ↔ (x.isStr && y.isStr) = true) ∧
      ((diffWordsChecked x y).isOk = false ↔
        diffWordsChecked x y = Except.error CoreError.invalidInput) := by
  refine ⟨rfl, rfl, ?_, ?_, ?_, ?_, ?_⟩
  · have hc : candidates "" = [] := by
      simp [candidates, strToLower, splitWs, splitWsChars, windows]
    simp [extract, hc, firstDedup]
  · cases x <;> simp [extractChecked, JsValue.isStr, Except.isOk, Except.toBool]
  · cases x <;> simp [extractChecked, Except.isOk, Except.toBool]
  · cases x <;> cases y <;>
      simp [diffWordsChecked, JsValue.isStr, Except.isOk, Except.toBool]
  · cases x <;> cases y <;>
      simp [diffWordsChecked, Except.isOk, Except.toBool]

/-! ## Front-end helpers translated from the TypeScript sources -/

/-- JavaScript `String.prototype.trim`: leading and trailing whitespace
removed. -/
def jsTrim (s : String) : String :=
  ⟨((s.data.dropWhile Char.isWhitespace).reverse.dropWhile
      Char.isWhitespace).reverse⟩

/-- An uploaded browser `File`, reduced to the only field the code
inspects. -/
structure WebFile where
  name : String
deriving DecidableEq, Repr

/-- A value appended to a `FormData`: a plain string or a file. -/
inductive FormValue
  | str (s : String)
  | file (f : WebFile)
deriving DecidableEq, Repr

/-- JavaScript `String.prototype.endsWith`. -/
def jsEndsWith (s tail : String) : Bool := tail.data.isSuffixOf s.data

/-- `resumeService.upload` (services/api.ts): the endpoint and the form
data it posts.  The file goes under `latex_file` when its lowercased name
ends with `.tex` and under `original_file` otherwise. -/
def resumeUpload (f : WebFile) : String × List (String × FormValue) :=
  ("/resumes/",
    [(if jsEndsWith (strToLower f.name) ".tex" then "latex_file"
      else "original_file", FormValue.file f)])

/-- The argument record of `resumeOptimizerService.generate`
(services/api.ts): optional fields are `Option`s, matching the
TypeScript optional / nullable types. -/
structure GenerateData where
  companyName : String
  jobTitle : String
  jobDescription : String
  requirements : Option String
  resumeId : Option Int
  resumeFile : Option WebFile
deriving DecidableEq, Repr

/-- `resumeOptimizerService.generate` (services/api.ts): the form data it
posts.  `requirements` falls back to the empty string
(`data.requirements || ''`), `resume_id` is appended only when
`data.resumeId` is a number, and `resume_file` only when a file is
present. -/
def generateForm (d : GenerateData) : List (String × FormValue) :=
  [("company_name", FormValue.str d.companyName),
    ("job_title", FormValue.str d.jobTitle),
    ("job_description", FormValue.str d.jobDescription),
    ("requirements", FormValue.str (d.requirements.getD ""))] ++
  (match d.resumeId with
    | some i => [("resume_id", FormValue.str (toString i))]
    | none => []) ++
  (match d.resumeFile with
    | some f => [("resume_file", FormValue.file f)]
    | none => [])

/-- JavaScript truthiness of a `number | null` id: `null` and `0` are
falsy. -/
def jsTruthyId : Option Int → Bool
  | none => false
  | some i => decide (i ≠ 0)

/-- JavaScript `selectedResumeId || undefined`: `null` and `0` collapse
to `undefined`. -/
def jsOrUndef : Option Int → Option Int
  | none => none
  | some i => if i = 0 then none else some i

/-- The state of the Home page that `handleGenerate` reads
(pages Home component). -/
structure HomeForm where
  companyName : String
  jobTitle : String
  jobDescription : String
  requirements : String
  selectedResumeId : Option Int
  resumeFile : Option WebFile
deriving DecidableEq, Repr

/-- What `handleGenerate` does: show an alert, or post form data to an
endpoint. -/
inductive GenOutcome
  | alert (msg : String)
  | request (url : String) (form : List (String × FormValue))
deriving DecidableEq, Repr

/-- Whether the outcome is a posted request. -/
def isRequest : GenOutcome → Bool
  | .alert _ => false
  | .request _ _ => true

/-- `handleGenerate` of the Home page: the guards and the submitted form,
translated from the component.  JavaScript truthiness makes a selected id
of `0` count as unset, and a provided file suppresses the `resume_id`
field. -/
def handleGenerate (f : HomeForm) : GenOutcome :=
  if jsTrim f.companyName = "" ∨ jsTrim f.jobTitle = "" ∨
      jsTrim f.jobDescription = "" then
    .alert "Please provide company name, job title, and job description"
  else if (jsTrim f.jobDescription).length < 50 then
    .alert "Job description should be at least 50 characters"
  else if f.resumeFile = none ∧ jsTruthyId f.selectedResumeId = false then
    .alert "Upload a resume here or use one from your Dashboard"
  else
    .request "/resume-optimizer/generate/"
      (generateForm
        { companyName := jsTrim f.companyName
          jobTitle := jsTrim f.jobTitle
          jobDescription := jsTrim f.jobDescription
          requirements := some (jsTrim f.requirements)
          resumeId :=
            if f.resumeFile.isSome then none else jsOrUndef f.selectedResumeId
          resumeFile := f.resumeFile })

/-- `ATSScore` component (components/ATSScore.tsx): the data its render
output displays. -/
structure ATSRender where
  scoreText : String
  scoreColor : String
  progressColor : String
  matchedHeading : Nat
  missingHeading : Nat
  matchedChips : List String
  missingChips : List String
deriving DecidableEq, Repr

/-- `getScoreColor` of the ATSScore component. -/
def getScoreColor (score : Int) : String :=
  if score ≥ 80 then "text-green-600"
  else if score ≥ 60 then "text-yellow-600"
  else "text-red-600"

/-- `getProgressColor` of the ATSScore component. -/
def getProgressColor (score : Int) : String :=
  if score ≥ 80 then "bg-green-600"
  else if score ≥ 60 then "bg-yellow-600"
  else "bg-red-600"

/-- The render of the ATSScore component: headings show the full list
lengths, the chip rows show `slice(0, 10)` of each list. -/
def renderATSScore (score : Int) (matchedKeywords missingKeywords : List String) :
    ATSRender :=
  { scoreText := toString score ++ "%"
    scoreColor := getScoreColor score
    progressColor := getProgressColor score
    matchedHeading := matchedKeywords.length
    missingHeading := missingKeywords.length
    matchedChips := matchedKeywords.take 10
    missingChips := missingKeywords.take 10 }

/-! ### Claim theorems for the front-end helpers -/

/-- A Home-page state with every field the claim requires set — the
selected dashboard resume id being `0` — on which `handleGenerate`
nevertheless alerts instead of posting. -/
def c8Form : HomeForm :=
  { companyName := "Globex"
    jobTitle := "Software Engineer"
    jobDescription := "Build and maintain web applications for enterprise clients."
    requirements := ""
    selectedResumeId := some 0
    resumeFile := none }

/-- C8 counterexample.  On `c8Form`, the trimmed company name, job title
and job description are non-empty, the trimmed description has length at
least 50, and `selectedResumeId` is set (to `0`) — yet `handleGenerate`
sends no request, because JavaScript truthiness treats the id `0` as
unset. -/
theorem handleGenerate_zero_id_counterexample :
    jsTrim c8Form.companyName ≠ "" ∧ jsTrim c8Form.jobTitle ≠ "" ∧
      jsTrim c8Form.jobDescription ≠ "" ∧
      50 ≤ (jsTrim c8Form.jobDescription).length ∧
      c8Form.selectedResumeId ≠ none ∧ c8Form.resumeFile = none ∧
      isRequest (handleGenerate c8Form) = false := by
  refine ⟨?_, ?_, ?_, ?_, ?_, rfl, ?_⟩ <;> decide

/-- C8 (amended).  `handleGenerate` posts to `resume-optimizer/generate/`
if and only if the trimmed company name, job title and job description
are non-empty, the trimmed description has length at least 50, and a
resume file is set or the selected resume id is set to a non-zero id
(JavaScript truthiness treats the id `0` as unset); otherwise it shows
one of the three alerts and sends nothing; and when a file is provided
the `resume_id` field is omitted from the submitted form data. -/
theorem handleGenerate_spec (f : HomeForm) :
    (isRequest (handleGenerate f) = true ↔
      (jsTrim f.companyName ≠ "" ∧ jsTrim f.jobTitle ≠ "" ∧
        jsTrim f.jobDescription ≠ "" ∧
        50 ≤ (jsTrim f.jobDescription).length ∧
        (f.resumeFile.isSome = true ∨ jsTruthyId f.selectedResumeId = true))) ∧
      (∀ url form, handleGenerate f = GenOutcome.request url form →
        url = "/resume-optimizer/generate/" ∧
          (f.resumeFile.isSome = true → "resume_id" ∉ form.map Prod.fst)) ∧
      (isRequest (handleGenerate f) = false →
        handleGenerate f =
            GenOutcome.alert
              "Please provide company name, job title, and job description" ∨
          handleGenerate f =
            GenOutcome.alert "Job description should be at least 50 characters" ∨
          handleGenerate f =
            GenOutcome.alert "Upload a resume here or use one from your Dashboard") := by
  refine ⟨?_, ?_, ?_⟩
  · rw [handleGenerate]
    split_ifs with h1 h2 h3 h4
    · simp only [isRequest, Bool.false_eq_true, false_iff]
      rintro ⟨hc, ht, hd, -, -⟩
      rcases h1 with h | h | h
      exacts [hc h, ht h, hd h]
    · simp only [isRequest, Bool.false_eq_true, false_iff]
      rintro ⟨-, -, -, hl, -⟩
      omega
    · simp only [isRequest, Bool.false_eq_true, false_iff]
      rintro ⟨-, -, -, -, hor⟩
      rcases hor with h | h
      · rw [h3.1] at h
        simp at h
      · rw [h3.2] at h
        simp at h
    · simp only [isRequest, true_iff]
      push_neg at h1
      exact ⟨h1.1, h1.2.1, h1.2.2, by omega, Or.inl h4⟩
    · simp only [isRequest, true_iff]
      push_neg at h1
      refine ⟨h1.1, h1.2.1, h1.2.2, by omega, Or.inr ?_⟩
      have hnone : f.resumeFile = none := by
        simpa [Option.isSome_iff_ne_none] using h4
      rcases Decidable.not_and_iff_or_not.mp h3 with h | h
      · exact absurd hnone h
      · simpa using h
  · intro url form h
    rw [handleGenerate] at h
    split_ifs at h with h1 h2 h3 h4
    · cases h
      refine ⟨rfl, ?_⟩
      intro hsome
      rcases Option.isSome_iff_exists.mp hsome with ⟨file, hfile⟩
      simp [generateForm, hfile]
    · cases h
      refine ⟨rfl, ?_⟩
      intro hsome
      exact absurd hsome h4
  · rw [handleGenerate]
    split_ifs <;> simp [isRequest]

/-- C9.  `resumeService.upload` always posts to the `/resumes/` endpoint,
with the file appended under the single key `latex_file` exactly when the
lowercased file name ends with `.tex`, and under `original_file`
otherwise. -/
theorem resumeUpload_spec (f : WebFile) :
    (resumeUpload f).1 = "/resumes/" ∧
      ((resumeUpload f).2.map Prod.fst = ["latex_file"] ↔
        jsEndsWith (strToLower f.name) ".tex" = true) ∧
      ((resumeUpload f).2.map Prod.fst = ["original_file"] ↔
        jsEndsWith (strToLower f.name) ".tex" = false) ∧
      (resumeUpload f).2.map Prod.snd = [FormValue.file f] := by
  by_cases h : jsEndsWith (strToLower f.name) ".tex" = true
  · refine ⟨rfl, ?_, ?_, ?_⟩ <;> simp [resumeUpload, h]
  · rw [Bool.not_eq_true] at h
    refine ⟨rfl, ?_, ?_, ?_⟩ <;> simp [resumeUpload, h]

/-- C10.  The ATSScore render shows at most 10 matched-keyword chips and
at most 10 missing-keyword chips — the `slice(0, 10)` prefixes of the two
lists — while the section headings display the full lengths of the
matchedKeywords and missingKeywords arrays. -/
theorem renderATSScore_spec (score : Int) (matched missing : List String) :
    (renderATSScore score matched missing).matchedChips.length ≤ 10 ∧
      (renderATSScore score matched missing).missingChips.length ≤ 10 ∧
      (renderATSScore score matched missing).matchedChips.length =
        min 10 matched.length ∧
      (renderATSScore score matched missing).missingChips.length =
        min 10 missing.length ∧
      (renderATSScore score matched missing).matchedChips <+: matched ∧
      (renderATSScore score matched missing).missingChips <+: missing ∧
      (renderATSScore score matched missing).matchedHeading = matched.length ∧
      (renderATSScore score matched missing).missingHeading = missing.length := by
  refine ⟨?_, ?_, ?_, ?_, ?_, ?_, rfl, rfl⟩
  · simp [renderATSScore]
  · simp [renderATSScore]
  · simp [renderATSScore]
  · simp [renderATSScore]
  · exact ⟨matched.drop 10, List.take_append_drop 10 matched⟩
  · exact ⟨missing.drop 10, List.take_append_drop 10 missing⟩

end ResumeMaker
